/-
Verification of the CCISO practice-exam engine (app.py) against its
natural-language specification.

The Python core is shallowly embedded: text is modelled as List Char,
the tolerant regex-driven parser is implemented as executable functions
reproducing the observable semantics of the specific patterns used by the
source (leftmost search, greedy whitespace, lazy capture up to the next
label or end), dictionaries keyed by exam position are modelled as
functions Nat -> Option (List Char), floats as rationals, and the shared
pseudo-random source as a Sampler record: any sample function returning a
sub-permutation of its pool of the requested length, plus any shuffle
returning a permutation.
-/
import Mathlib

set_option maxRecDepth 10000

namespace CCISO

open scoped List

/-! ## Character utilities (Python str / re primitives) -/

/-- ASCII whitespace, as recognized by re \s and str.strip on the corpus. -/
def isWs (c : Char) : Bool :=
  c = ' ' || c = '\t' || c = '\n' || c = '\r' || c = '\x0b' || c = '\x0c'

/-- ASCII decimal digit, as recognized by re \d on the corpus. -/
def isDigitCh (c : Char) : Bool :=
  48 ≤ c.toNat && c.toNat ≤ 57

/-- Numeric value of a digit character. -/
def digitVal (c : Char) : Nat := c.toNat - 48

/-- Value of a digit string, as computed by Python int() on a \d+ capture. -/
def natOfDigits (ds : List Char) : Nat :=
  ds.foldl (fun a c => 10 * a + digitVal c) 0

/-- Python str.strip(): remove leading and trailing whitespace. -/
def strip (l : List Char) : List Char :=
  ((l.dropWhile isWs).reverse.dropWhile isWs).reverse

/-- Python substring test (the `in` operator / implicit in re.search). -/
def containsSub (pat : List Char) : List Char → Bool
  | [] => pat.isPrefixOf []
  | c :: rest => pat.isPrefixOf (c :: rest) || containsSub pat rest

/-! ## The literal labels of the input format -/

def MARKER : List Char := "----Question".data
def DOMAIN_LABEL : List Char := "Domain:".data
def DOMAIN_WORD : List Char := "Domain".data
def QUESTION_LABEL : List Char := "Question text:".data
def OPTIONS_LABEL : List Char := "Options:".data
def EXCERPT_LABEL : List Char := "Excerpt from source:".data
def NL_OPTIONS : List Char := "\nOptions:".data
def NL_EXCERPT : List Char := "\nExcerpt from source:".data
def NL_MARKER : List Char := "\n----Question".data
def CORRECT_TAG : List Char := "[CORRECT]".data

/-! ## Data model -/

/-- An answer option; letter is the single captured character A-D. -/
structure QOption where
  letter : Char
  text : List Char
  isCorrect : Bool
deriving DecidableEq, Repr

/-- A parsed question record. -/
structure Question where
  id : Nat
  domain : List Char
  domainNumber : Nat
  questionText : List Char
  options : List QOption
  excerpt : List Char
deriving DecidableEq, Repr

instance : Inhabited Question := ⟨⟨0, [], 0, [], [], []⟩⟩

/-! ## Record splitting: re.split applied to the marker pattern

The source splits on a marker that is the literal "----Question" followed
by one or more whitespace characters followed by one or more digits (the
captured question id); the body of a record runs to the start of the next
marker match or end of input. -/

/-- Match the marker pattern at the head of s, returning the captured id
and the remainder after the digits. -/
def matchMarker (s : List Char) : Option (Nat × List Char) :=
  if MARKER.isPrefixOf s then
    let r := s.drop MARKER.length
    let w := r.takeWhile isWs
    if w = [] then none
    else
      let r2 := r.drop w.length
      let ds := r2.takeWhile isDigitCh
      if ds = [] then none else some (natOfDigits ds, r2.drop ds.length)
  else none

/-- Take the record body: the characters before the next marker match,
returning it with the remaining input (which starts at that match). -/
def takeBlock : List Char → List Char × List Char
  | [] => ([], [])
  | c :: rest =>
    if (matchMarker (c :: rest)).isSome then ([], c :: rest)
    else
      let p := takeBlock rest
      (c :: p.1, p.2)

/-- Fuelled splitting loop. Every recursive call consumes at least one
character (a marker match consumes the marker, whitespace and digits), so
fuel = length + 1 never runs out. -/
def splitF : Nat → List Char → List (Nat × List Char)
  | 0, _ => []
  | _ + 1, [] => []
  | fuel + 1, c :: rest =>
    match matchMarker (c :: rest) with
    | some (idn, after) => (idn, (takeBlock after).1) :: splitF fuel (takeBlock after).2
    | none => splitF fuel rest

/-- The (id, body) pairs produced by re.split on the marker pattern; one
pair per marker occurrence in the input. -/
def splitQuestions (s : List Char) : List (Nat × List Char) :=
  splitF (s.length + 1) s

/-! ## Single-line field capture: the Domain: pattern

The source extracts the domain label with a search for "Domain:" then
greedy \s*, then a lazy one-or-more capture of non-newline characters
ending at a newline or at the end of the block. -/

/-- Semantics of the greedy-whitespace, lazy-capture-to-newline tail of
the Domain: pattern applied to the text after the label: skip the maximal
whitespace run and capture to the next newline; if the rest is entirely
whitespace, backtracking leaves the last non-newline character as the
capture, and the match fails if every character is a newline (or the rest
is empty). -/
def matchLineCapture (rest : List Char) : Option (List Char) :=
  let w := (rest.takeWhile isWs).length
  if w < rest.length then
    some ((rest.drop w).takeWhile (fun c => c ≠ '\n'))
  else
    match rest.reverse.dropWhile (fun c => c = '\n') with
    | [] => none
    | c :: _ => some [c]

/-- Leftmost search: try the matcher at each occurrence of the label,
left to right, returning the first successful capture. -/
def searchCapture (label : List Char) (matcher : List Char → Option (List Char)) :
    List Char → Option (List Char)
  | [] => none
  | c :: rest =>
    if label.isPrefixOf (c :: rest) then
      match matcher ((c :: rest).drop label.length) with
      | some cap => some cap
      | none => searchCapture label matcher rest
    else searchCapture label matcher rest

/-! ## Multi-line field capture: Question text / Options / Excerpt

These three patterns are label, greedy \s*, lazy dot-all capture of one or
more characters stopped by a lookahead for the next label (a fixed string
beginning with a newline) or end of block. -/

/-- Capture characters until the stop string begins, or to the end. -/
def stopTake (stopPat : List Char) : List Char → List Char
  | [] => []
  | c :: rest => if stopPat.isPrefixOf (c :: rest) then [] else c :: stopTake stopPat rest

/-- Semantics of the greedy-whitespace, lazy dot-all capture applied to
the text after the label: with a nonempty rest, greedy \s* consumes the
maximal whitespace run (backing off one character when the rest is all
whitespace, since the capture needs at least one character), and the lazy
capture extends to the first position, at least one past its start, where
the stop string begins, or to the end of the block. -/
def matchDotall (stopPat : List Char) (rest : List Char) : Option (List Char) :=
  match rest with
  | [] => none
  | _ :: _ =>
    let w := min (rest.takeWhile isWs).length (rest.length - 1)
    match rest.drop w with
    | [] => none
    | c :: r2 => some (c :: stopTake stopPat r2)

/-! ## Domain number extraction: the word "Domain", optional whitespace,
then one or more digits; first occurrence wins, absence yields 0. -/

/-- Digits after optional whitespace (the \s*(\d+) tail). -/
def digitsAfterWs (r : List Char) : Option Nat :=
  let ds := (r.dropWhile isWs).takeWhile isDigitCh
  if ds = [] then none else some (natOfDigits ds)

/-- First integer token following the word "Domain" in a label. -/
def searchDomainNum : List Char → Option Nat
  | [] => none
  | c :: rest =>
    if DOMAIN_WORD.isPrefixOf (c :: rest) then
      match digitsAfterWs ((c :: rest).drop DOMAIN_WORD.length) with
      | some n => some n
      | none => searchDomainNum rest
    else searchDomainNum rest

/-- domainNumber as stored by the parser: the extracted token, else 0. -/
def extract_domain_number (t : List Char) : Nat :=
  (searchDomainNum t).getD 0

/-! ## Option items: findall of letter-dot, greedy \s*, lazy dot-all
capture stopped by a lookahead for newline-letter-dot or end of string
(where end also matches just before a trailing final newline). -/

def isOptLetter (c : Char) : Bool :=
  c = 'A' || c = 'B' || c = 'C' || c = 'D'

/-- Scan the tail of an option capture: stop (excluding) at a
newline-letter-dot sequence, just before a trailing final newline, or at
the end. -/
def optScan : List Char → List Char
  | [] => []
  | ['\n'] => []
  | '\n' :: x :: '.' :: rest =>
    if isOptLetter x then [] else '\n' :: optScan (x :: '.' :: rest)
  | c :: rest => c :: optScan rest

/-- Match one option body after the letter and dot: greedy whitespace
(backing off one character when the rest is all whitespace), then the
lazy capture of at least one character; returns the capture and the
number of characters consumed (where the next findall scan resumes). -/
def optTryMatch (rest : List Char) : Option (List Char × Nat) :=
  match rest with
  | [] => none
  | _ :: _ =>
    let w := min (rest.takeWhile isWs).length (rest.length - 1)
    match rest.drop w with
    | [] => none
    | c :: r2 =>
      let cap := c :: optScan r2
      some (cap, w + cap.length)

/-- Fuelled findall loop; a failed attempt advances one character, a
successful match resumes at its end, so fuel = length + 1 suffices. -/
def findOptionsF : Nat → List Char → List (Char × List Char)
  | 0, _ => []
  | _ + 1, [] => []
  | fuel + 1, c :: rest =>
    match rest with
    | '.' :: rest2 =>
      if isOptLetter c then
        match optTryMatch rest2 with
        | some (txt, consumed) => (c, txt) :: findOptionsF fuel (rest2.drop consumed)
        | none => findOptionsF fuel rest
      else findOptionsF fuel rest
    | _ => findOptionsF fuel rest

/-- All (letter, raw text) option matches in the options capture. -/
def find_options (s : List Char) : List (Char × List Char) :=
  findOptionsF (s.length + 1) s

/-- Fuelled removal of every occurrence of the correctness tag
(Python str.replace with the empty replacement); each step consumes at
least one character, so fuel = length + 1 suffices. -/
def removeTagF : Nat → List Char → List Char
  | 0, l => l
  | _ + 1, [] => []
  | fuel + 1, c :: rest =>
    if CORRECT_TAG.isPrefixOf (c :: rest) then
      removeTagF fuel ((c :: rest).drop CORRECT_TAG.length)
    else c :: removeTagF fuel rest

/-- text.replace of the correctness tag by the empty string. -/
def remove_correct_tag (l : List Char) : List Char :=
  removeTagF (l.length + 1) l

/-- Build option records from the findall matches: strip the text, test
for the tag, strip the tag out of the stored text. -/
def parse_options (options_text : List Char) : List QOption :=
  (find_options options_text).map (fun p =>
    let text := strip p.2
    let is_correct := containsSub CORRECT_TAG text
    let clean_text := strip (remove_correct_tag text)
    { letter := p.1, text := clean_text, isCorrect := is_correct })

/-! ## Block processing and the parser entry point -/

/-- Process one (id, block) pair: a missing Domain: field drops the block;
the remaining fields default to empty; the block becomes a Question only
when the question text is nonempty and at least one option was recovered. -/
def process_block (question_id : Nat) (block : List Char) : Option Question :=
  match searchCapture DOMAIN_LABEL matchLineCapture block with
  | none => none
  | some dcap =>
    let domain_text := strip dcap
    let domain_number := extract_domain_number domain_text
    let question_text := strip ((searchCapture QUESTION_LABEL (matchDotall NL_OPTIONS) block).getD [])
    let options_text := strip ((searchCapture OPTIONS_LABEL (matchDotall NL_EXCERPT) block).getD [])
    let options := parse_options options_text
    let excerpt := strip ((searchCapture EXCERPT_LABEL (matchDotall NL_MARKER) block).getD [])
    if question_text ≠ [] ∧ options ≠ [] then
      some { id := question_id, domain := domain_text, domainNumber := domain_number,
             questionText := question_text, options := options, excerpt := excerpt }
    else none

/-- parse_questions: split into records, process each, keep the valid ones. -/
def parse_questions (content : List Char) : List Question :=
  (splitQuestions content).filterMap (fun p => process_block p.1 p.2)

/-! ## Configuration constants -/

/-- Practice exam distribution, in the iteration order of the source. -/
def EXAM_DISTRIBUTION : List (Nat × Nat) :=
  [(1, 32), (2, 30), (3, 32), (4, 29), (5, 29)]

def TOTAL_EXAM_QUESTIONS : Nat := 152

def PASSING_PERCENTAGE : ℚ := 80

/-! ## Scoring -/

/-- Score report, the tuple returned by calculate_score. -/
structure ScoreReport where
  correctCount : Nat
  total : Nat
  percentage : ℚ
  passed : Bool
deriving DecidableEq, Repr

/-- Contribution of one exam position: 1 when the submitted answer is
truthy (present and nonempty) and equals the letter of the first option
marked correct, else 0. -/
def scoreOne (user_answers : Nat → Option (List Char)) (i : Nat) (q : Question) : Nat :=
  match user_answers i with
  | none => 0
  | some a =>
    if a = [] then 0
    else
      match q.options.find? (fun o => o.isCorrect) with
      | none => 0
      | some o => if a = [o.letter] then 1 else 0

/-- The enumerate loop of calculate_score, accumulating from position i. -/
def count_correct (user_answers : Nat → Option (List Char)) : Nat → List Question → Nat
  | _, [] => 0
  | i, q :: rest => scoreOne user_answers i q + count_correct user_answers (i + 1) rest

/-- calculate_score: correct count, total, percentage (0 on an empty
exam), pass flag. -/
def calculate_score (exam_questions : List Question)
    (user_answers : Nat → Option (List Char)) : ScoreReport :=
  let correct := count_correct user_answers 0 exam_questions
  let total := exam_questions.length
  let percentage : ℚ := if 0 < total then (correct : ℚ) / (total : ℚ) * 100 else 0
  { correctCount := correct, total := total, percentage := percentage,
    passed := decide (PASSING_PERCENTAGE ≤ percentage) }

/-! ## Time formatting -/

/-- Decimal digit character. -/
def digitChar10 : Nat → Char
  | 0 => '0' | 1 => '1' | 2 => '2' | 3 => '3' | 4 => '4'
  | 5 => '5' | 6 => '6' | 7 => '7' | 8 => '8' | 9 => '9'
  | _ + 10 => '0'

/-- Fuelled decimal representation, most significant digit first; one
digit is emitted per division by ten, so any fuel above n suffices. -/
def natDigitsF : Nat → Nat → List Char
  | 0, _ => []
  | fuel + 1, n =>
    if n < 10 then [digitChar10 n]
    else natDigitsF fuel (n / 10) ++ [digitChar10 (n % 10)]

/-- Decimal representation of n (Python str / format of an int). -/
def natDigits (n : Nat) : List Char := natDigitsF (n + 1) n

/-- Python format spec 02d: zero-pad the decimal representation to a
minimum width of two. -/
def pad2 (n : Nat) : List Char :=
  if n < 10 then '0' :: natDigits n else natDigits n

/-- format_time: minutes, colon, seconds remainder. -/
def format_time (seconds : Nat) : List Char :=
  pad2 (seconds / 60) ++ ':' :: pad2 (seconds % 60)

/-! ## Exam assembly -/

/-- All questions of a domain, in corpus order. -/
def get_questions_by_domain (questions : List Question) (domain : Nat) : List Question :=
  questions.filter (fun q => decide (q.domainNumber = domain))

/-- All questions outside a domain, in corpus order (the shortfall pool). -/
def get_other_questions (questions : List Question) (domain : Nat) : List Question :=
  questions.filter (fun q => decide (q.domainNumber ≠ domain))

/-- Model of the shared pseudo-random source: sampling without
replacement returns some sub-permutation of the pool, of the requested
size whenever the pool is large enough, and shuffling returns some
permutation. -/
structure Sampler where
  sample : List Question → Nat → List Question
  shuffle : List Question → List Question
  sample_subperm : ∀ l k, sample l k <+~ l
  sample_length : ∀ l k, k ≤ l.length → (sample l k).length = k
  shuffle_perm : ∀ l, shuffle l ~ l

/-- One iteration of the selection loop: draw the quota from the domain
pool, or take the whole pool and fill the shortfall from the other
domains (capped by their size), skipping the fill when no other
questions exist. -/
def selectStep (S : Sampler) (questions : List Question)
    (selected : List Question) (p : Nat × Nat) : List Question :=
  let domain_questions := get_questions_by_domain questions p.1
  if p.2 ≤ domain_questions.length then
    selected ++ S.sample domain_questions p.2
  else
    let remaining := p.2 - domain_questions.length
    let other_questions := get_other_questions questions p.1
    if other_questions = [] then selected ++ domain_questions
    else selected ++ domain_questions ++
      S.sample other_questions (min remaining other_questions.length)

/-- The contribution of one (domain, count) entry. -/
def domainDraw (S : Sampler) (questions : List Question) (p : Nat × Nat) : List Question :=
  selectStep S questions [] p

/-- select_exam_questions: fold the selection loop over the distribution,
then shuffle. -/
def select_exam_questions (S : Sampler) (questions : List Question) : List Question :=
  S.shuffle (EXAM_DISTRIBUTION.foldl (selectStep S questions) [])

/-- Number of questions of a domain in a list. -/
def countDomain (d : Nat) (l : List Question) : Nat :=
  l.countP (fun q => decide (q.domainNumber = d))

/-- Deterministic instance of the random-source model used by concrete
witnesses: sample by taking a prefix, shuffle by the identity. -/
def takeSampler : Sampler where
  sample := fun l k => l.take k
  shuffle := fun l => l
  sample_subperm := fun l k => (List.take_sublist k l).subperm
  sample_length := fun l k hk => by simp [List.length_take, Nat.min_eq_left hk]
  shuffle_perm := fun l => List.Perm.refl l

/-! ## Concrete inputs used by witnesses and counterexamples -/

/-- A minimal question of a given domain and id. -/
def mkQ (d n : Nat) : Question :=
  ⟨n, [], d, ['q'], [⟨'A', ['x'], true⟩], []⟩

/-- Domain layout of a corpus meeting every quota exactly. -/
def domFull (n : Nat) : Nat :=
  if n < 32 then 1 else if n < 62 then 2 else if n < 94 then 3 else if n < 123 then 4 else 5

/-- A 152-question corpus with exactly quota questions in each domain. -/
def corpusFull : List Question := (List.range 152).map (fun n => mkQ (domFull n) n)

/-- Domain layout of a corpus in which only domain 2 is deficient. -/
def domDef2 (n : Nat) : Nat :=
  if n < 32 then 1 else if n < 64 then 3 else if n < 93 then 4 else 5

/-- A 122-question corpus: domain 2 empty, all other quotas met exactly. -/
def corpusDef2 : List Question := (List.range 122).map (fun n => mkQ (domDef2 n) n)

/-- A corpus of 31 domain-2 questions and nothing else. -/
def corpusOnly2 : List Question := (List.range 31).map (mkQ 2)

/-- The well-formed single record of the round-trip property. -/
def WELLFORMED_INPUT : String :=
  "----Question 1\nDomain: Domain 2: X\nQuestion text: What is X?\nOptions:\nA. foo\nB. bar [CORRECT]\nC. baz\nExcerpt from source: src\n"

/-- A record whose domain label carries the integer token 7. -/
def DOMAIN7_INPUT : String :=
  "----Question 1\nDomain: Domain 7: X\nQuestion text: Q\nOptions:\nA. a\n"

/-- A block with no Domain: line at all. -/
def NO_DOMAIN_BLOCK : String :=
  "\nQuestion text: Q\nOptions:\nA. a\n"

/-- A question with two options both marked correct. -/
def qTwoCorrect : Question :=
  ⟨1, [], 1, ['q'], [⟨'A', ['x'], true⟩, ⟨'B', ['y'], true⟩], []⟩

/-! # Theorems -/

/-! ## Decimal formatting lemmas -/

theorem digitVal_digitChar10 {n : Nat} (h : n < 10) : digitVal (digitChar10 n) = n := by
  interval_cases n <;> rfl

theorem isDigitCh_digitChar10 (n : Nat) : isDigitCh (digitChar10 n) = true := by
  unfold digitChar10
  split <;> rfl

theorem natOfDigits_append (l : List Char) (c : Char) :
    natOfDigits (l ++ [c]) = 10 * natOfDigits l + digitVal c := by
  simp [natOfDigits, List.foldl_append]

theorem natOfDigits_zero_cons (l : List Char) :
    natOfDigits ('0' :: l) = natOfDigits l := rfl

theorem natOfDigits_natDigitsF : ∀ (fuel n : Nat), n < fuel →
    natOfDigits (natDigitsF fuel n) = n := by
  intro fuel
  induction fuel with
  | zero => intro n h; omega
  | succ f ih =>
    intro n h
    by_cases h10 : n < 10
    · simp only [natDigitsF, if_pos h10]
      show 10 * 0 + digitVal (digitChar10 n) = n
      rw [digitVal_digitChar10 h10]; omega
    · have hdiv : n / 10 < n := Nat.div_lt_self (by omega) (by omega)
      simp only [natDigitsF, if_neg h10]
      rw [natOfDigits_append, ih (n / 10) (by omega), digitVal_digitChar10 (Nat.mod_lt n (by omega))]
      omega

theorem mem_natDigitsF_digit : ∀ (fuel n : Nat) (c : Char), c ∈ natDigitsF fuel n →
    isDigitCh c = true := by
  intro fuel
  induction fuel with
  | zero => intro n c h; simp [natDigitsF] at h
  | succ f ih =>
    intro n c h
    by_cases h10 : n < 10
    · simp only [natDigitsF, if_pos h10, List.mem_singleton] at h
      rw [h]; exact isDigitCh_digitChar10 n
    · simp only [natDigitsF, if_neg h10, List.mem_append, List.mem_singleton] at h
      rcases h with h | h
      · exact ih _ _ h
      · rw [h]; exact isDigitCh_digitChar10 _

theorem length_natDigitsF_lt10 {fuel n : Nat} (hf : 0 < fuel) (h : n < 10) :
    (natDigitsF fuel n).length = 1 := by
  cases fuel with
  | zero => omega
  | succ f => simp [natDigitsF, if_pos h]

theorem length_natDigitsF_pos {fuel n : Nat} (hf : 0 < fuel) :
    1 ≤ (natDigitsF fuel n).length := by
  cases fuel with
  | zero => omega
  | succ f =>
    by_cases h10 : n < 10
    · simp [natDigitsF, if_pos h10]
    · simp [natDigitsF, if_neg h10]

theorem natOfDigits_pad2 (n : Nat) : natOfDigits (pad2 n) = n := by
  unfold pad2
  split
  · rw [natOfDigits_zero_cons]
    exact natOfDigits_natDigitsF (n + 1) n (by omega)
  · exact natOfDigits_natDigitsF (n + 1) n (by omega)

theorem natDigitsF_succ (f n : Nat) :
    natDigitsF (f + 1) n =
      if n < 10 then [digitChar10 n] else natDigitsF f (n / 10) ++ [digitChar10 (n % 10)] := rfl

theorem length_pad2_lt100 {n : Nat} (h : n < 100) : (pad2 n).length = 2 := by
  unfold pad2
  split
  · rename_i h10
    simp [natDigits, length_natDigitsF_lt10 (by omega : 0 < n + 1) h10]
  · rename_i h10
    push_neg at h10
    unfold natDigits
    cases n with
    | zero => omega
    | succ m =>
      rw [natDigitsF_succ, if_neg (by omega : ¬ m + 1 < 10), List.length_append,
        length_natDigitsF_lt10 (by omega : 0 < m + 1) (by omega : (m + 1) / 10 < 10)]
      rfl

theorem two_le_length_pad2 (n : Nat) : 2 ≤ (pad2 n).length := by
  unfold pad2
  split
  · rename_i h10
    rw [List.length_cons, natDigits, length_natDigitsF_lt10 (by omega : 0 < n + 1) h10]
  · rename_i h10
    push_neg at h10
    unfold natDigits
    cases n with
    | zero => omega
    | succ m =>
      rw [natDigitsF_succ, if_neg (by omega : ¬ m + 1 < 10), List.length_append]
      have h1 := length_natDigitsF_pos (n := (m + 1) / 10) (by omega : 0 < m + 1)
      simp only [List.length_cons, List.length_nil]
      omega

theorem pad2_no_colon (n : Nat) : ∀ c ∈ pad2 n, (fun c => decide (c ≠ ':')) c = true := by
  intro c hc
  simp only [decide_eq_true_iff]
  intro hcol
  subst hcol
  unfold pad2 at hc
  have hdig : isDigitCh ':' = true := by
    split at hc
    · rcases List.mem_cons.mp hc with h | h
      · exact absurd h (by decide)
      · exact mem_natDigitsF_digit _ _ _ h
    · exact mem_natDigitsF_digit _ _ _ hc
  exact absurd hdig (by decide)

theorem takeWhile_append_stop {p : Char → Bool} {l : List Char} {x : Char} (r : List Char)
    (hl : ∀ c ∈ l, p c = true) (hx : p x = false) :
    (l ++ x :: r).takeWhile p = l := by
  induction l with
  | nil =>
    rw [List.nil_append, List.takeWhile_cons_of_neg (by simp [hx])]
  | cons c t ih =>
    rw [List.cons_append, List.takeWhile_cons_of_pos (hl c (List.mem_cons_self c t)),
      ih (fun d hd => hl d (List.mem_cons_of_mem c hd))]

theorem dropWhile_append_stop {p : Char → Bool} {l : List Char} {x : Char} (r : List Char)
    (hl : ∀ c ∈ l, p c = true) (hx : p x = false) :
    (l ++ x :: r).dropWhile p = x :: r := by
  induction l with
  | nil =>
    rw [List.nil_append, List.dropWhile_cons_of_neg (by simp [hx])]
  | cons c t ih =>
    rw [List.cons_append, List.dropWhile_cons_of_pos (hl c (List.mem_cons_self c t))]
    exact ih (fun d hd => hl d (List.mem_cons_of_mem c hd))

/-- C8 (amended): format_time renders the minutes seconds // 60 in
decimal, zero-padded to a minimum of two digits, then a colon, then the
two-digit zero-padded remainder seconds % 60; for seconds < 6000 the
result is exactly the five-character MM:SS shape claimed. -/
theorem format_time_fields (s : Nat) :
    natOfDigits ((format_time s).takeWhile (fun c => decide (c ≠ ':'))) = s / 60 ∧
    natOfDigits (((format_time s).dropWhile (fun c => decide (c ≠ ':'))).tail) = s % 60 ∧
    2 ≤ ((format_time s).takeWhile (fun c => decide (c ≠ ':'))).length ∧
    (((format_time s).dropWhile (fun c => decide (c ≠ ':'))).tail).length = 2 ∧
    (s < 6000 → (format_time s).length = 5) := by
  have htake : (format_time s).takeWhile (fun c => decide (c ≠ ':')) = pad2 (s / 60) := by
    unfold format_time
    exact takeWhile_append_stop _ (pad2_no_colon (s / 60)) (by decide)
  have hdrop : (format_time s).dropWhile (fun c => decide (c ≠ ':')) = ':' :: pad2 (s % 60) := by
    unfold format_time
    exact dropWhile_append_stop _ (pad2_no_colon (s / 60)) (by decide)
  refine ⟨?_, ?_, ?_, ?_, ?_⟩
  · rw [htake, natOfDigits_pad2]
  · rw [hdrop, List.tail_cons, natOfDigits_pad2]
  · rw [htake]; exact two_le_length_pad2 _
  · rw [hdrop, List.tail_cons]
    exact length_pad2_lt100 (by omega : s % 60 < 100)
  · intro hs
    unfold format_time
    rw [List.length_append, List.length_cons,
      length_pad2_lt100 (by omega : s / 60 < 100),
      length_pad2_lt100 (by omega : s % 60 < 100)]

/-- C8 witness: the amended statement instantiated at 754 seconds. -/
theorem format_time_fields_witness :
    natOfDigits ((format_time 754).takeWhile (fun c => decide (c ≠ ':'))) = 754 / 60 ∧
    natOfDigits (((format_time 754).dropWhile (fun c => decide (c ≠ ':'))).tail) = 754 % 60 ∧
    2 ≤ ((format_time 754).takeWhile (fun c => decide (c ≠ ':'))).length ∧
    (((format_time 754).dropWhile (fun c => decide (c ≠ ':'))).tail).length = 2 ∧
    (754 < 6000 → (format_time 754).length = 5) :=
  format_time_fields 754

/-- C8 counterexample: at 6000 seconds the minutes field is the three
digits 100, so the result is not the five-character MM:SS string the
claim asserts for every non-negative number of seconds. -/
theorem format_time_cex :
    format_time 6000 = "100:00".data ∧ (format_time 6000).length ≠ 5 := by
  constructor
  · decide
  · decide

/-! ## Scoring lemmas -/

theorem scoreOne_congr {a b : Nat → Option (List Char)} {j : Nat} (q : Question)
    (h : a j = b j) : scoreOne a j q = scoreOne b j q := by
  unfold scoreOne
  rw [h]

theorem count_correct_congr {a b : Nat → Option (List Char)} :
    ∀ (l : List Question) (i : Nat), (∀ j, i ≤ j → j < i + l.length → a j = b j) →
      count_correct a i l = count_correct b i l := by
  intro l
  induction l with
  | nil => intro i _; rfl
  | cons q t ih =>
    intro i h
    unfold count_correct
    rw [scoreOne_congr q (h i (Nat.le_refl i) (by simp)),
      ih (i + 1) (fun j h1 h2 => h j (by omega) (by simp; omega))]

theorem count_correct_ext {a b : Nat → Option (List Char)}
    (h : ∀ j q, scoreOne a j q = scoreOne b j q) :
    ∀ (l : List Question) (i : Nat), count_correct a i l = count_correct b i l := by
  intro l
  induction l with
  | nil => intro i; rfl
  | cons q t ih =>
    intro i
    unfold count_correct
    rw [h i q, ih (i + 1)]

theorem calculate_score_eq_of_counts {exam : List Question}
    {a b : Nat → Option (List Char)}
    (h : count_correct a 0 exam = count_correct b 0 exam) :
    calculate_score exam a = calculate_score exam b := by
  unfold calculate_score
  rw [h]

/-- C3: the score report carries total = exam length, the percentage
formula (correct / total * 100 when the exam is nonempty, 0 otherwise),
the pass flag as the threshold comparison, and on the empty exam with the
empty answer map everything is zero and the result is a fail. -/
theorem calculate_score_spec (exam : List Question) (ans : Nat → Option (List Char)) :
    (calculate_score exam ans).total = exam.length ∧
    (calculate_score exam ans).percentage =
      (if 0 < exam.length then
        ((calculate_score exam ans).correctCount : ℚ) / (exam.length : ℚ) * 100 else 0) ∧
    ((calculate_score exam ans).passed = true ↔
      PASSING_PERCENTAGE ≤ (calculate_score exam ans).percentage) ∧
    calculate_score [] (fun _ => none) = ⟨0, 0, 0, false⟩ := by
  refine ⟨rfl, rfl, ?_, ?_⟩
  · show decide _ = true ↔ _
    exact decide_eq_true_iff
  · unfold calculate_score count_correct
    norm_num [PASSING_PERCENTAGE]

/-- C4: only positions that carry an answer and whose question has some
option marked correct can contribute to the correct count; the count is
bounded by the number of such positions (and the function is total by
construction). -/
theorem score_only_answered_with_correct (exam : List Question)
    (ans : Nat → Option (List Char)) :
    (calculate_score exam ans).correctCount ≤
      exam.enum.countP
        (fun p => (ans p.1).isSome && p.2.options.any (fun o => o.isCorrect)) := by
  show count_correct ans 0 exam ≤ _
  rw [show exam.enum = exam.enumFrom 0 from rfl]
  generalize 0 = i
  induction exam generalizing i with
  | nil => simp [count_correct]
  | cons q t ih =>
    rw [List.enumFrom_cons, List.countP_cons]
    unfold count_correct
    have hhead : scoreOne ans i q ≤
        if ((ans (i, q).1).isSome && (i, q).2.options.any (fun o => o.isCorrect)) = true
        then 1 else 0 := by
      unfold scoreOne
      cases hai : ans i with
      | none => simp
      | some a =>
        by_cases ha : a = []
        · simp [ha]
        · simp only [if_neg ha]
          cases hf : q.options.find? (fun o => o.isCorrect) with
          | none => simp
          | some o =>
            have hmem : o ∈ q.options := List.mem_of_find?_eq_some hf
            have hcor : o.isCorrect = true := List.find?_some hf
            have hany : q.options.any (fun o => o.isCorrect) = true :=
              List.any_eq_true.mpr ⟨o, hmem, hcor⟩
            simp [hai, hany]
            split <;> omega
    have := ih (i + 1)
    omega

/-- C9: answer-map entries at positions outside the exam never influence
the score (the report depends only on the map's values below the exam
length), and an entry holding the empty string behaves exactly like a
missing entry; no input makes the function fail. -/
theorem score_ignores_invalid_entries (exam : List Question)
    (a b : Nat → Option (List Char)) (hagree : ∀ j, j < exam.length → a j = b j) :
    calculate_score exam a = calculate_score exam b ∧
    calculate_score exam a =
      calculate_score exam (fun i => if a i = some [] then none else a i) := by
  constructor
  · exact calculate_score_eq_of_counts
      (count_correct_congr exam 0 (fun j h1 h2 => hagree j (by omega)))
  · refine calculate_score_eq_of_counts (count_correct_ext ?_ exam 0).symm
    intro j q
    by_cases h : a j = some []
    · simp [scoreOne, h]
    · exact scoreOne_congr q (if_neg h)

/-- C9 witness: a map entry above the exam length (here the empty-string
entry at position 1 of a one-question exam) neither changes the score nor
breaks the computation. -/
theorem score_ignores_invalid_entries_witness :
    calculate_score [qTwoCorrect] (fun i => if i = 0 then some ['A'] else some []) =
      calculate_score [qTwoCorrect] (fun i => if i = 0 then some ['A'] else none) ∧
    calculate_score [qTwoCorrect] (fun i => if i = 0 then some ['A'] else some []) =
      calculate_score [qTwoCorrect]
        (fun i => if (if i = 0 then some ['A'] else some []) = some [] then none
          else if i = 0 then some ['A'] else some []) :=
  score_ignores_invalid_entries [qTwoCorrect]
    (fun i => if i = 0 then some ['A'] else some [])
    (fun i => if i = 0 then some ['A'] else none)
    (by decide)

theorem find?_first_correct {l1 l2 : List QOption} {opt : QOption}
    (hl1 : ∀ o ∈ l1, o.isCorrect = false) (hc : opt.isCorrect = true) :
    (l1 ++ opt :: l2).find? (fun o => o.isCorrect) = some opt := by
  induction l1 with
  | nil =>
    rw [List.nil_append]
    exact List.find?_cons_of_pos l2 hc
  | cons y t ih =>
    rw [List.cons_append,
      List.find?_cons_of_neg _ (by simp [hl1 y (List.mem_cons_self y t)])]
    exact ih (fun o ho => hl1 o (List.mem_cons_of_mem y ho))

theorem count_correct_remove (a : Nat → Option (List Char)) (i : Nat) :
    ∀ (l : List Question) (k : Nat), k ≤ i → i < k + l.length →
      count_correct a k l =
        count_correct (fun j => if j = i then none else a j) k l +
          scoreOne a i (l.getD (i - k) default) := by
  intro l
  induction l with
  | nil => intro k h1 h2; simp at h2; omega
  | cons q t ih =>
    intro k h1 h2
    by_cases hk : k = i
    · subst hk
      have htail : count_correct a (k + 1) t =
          count_correct (fun j => if j = k then none else a j) (k + 1) t :=
        count_correct_congr t (k + 1) (fun j hj1 hj2 => (if_neg (by omega)).symm)
      unfold count_correct
      rw [htail]
      have hz : scoreOne (fun j => if j = k then none else a j) k q = 0 := by
        simp [scoreOne]
      rw [hz]
      simp only [Nat.sub_self, List.getD_cons_zero]
      omega
    · have hk' : k < i := by omega
      unfold count_correct
      have hhead : scoreOne (fun j => if j = i then none else a j) k q = scoreOne a k q :=
        scoreOne_congr q (if_neg (by omega))
      rw [hhead, ih (k + 1) (by omega) (by simp at h2 ⊢; omega)]
      have hidx : (q :: t).getD (i - k) default = t.getD (i - (k + 1)) default := by
        have : i - k = (i - (k + 1)) + 1 := by omega
        rw [this, List.getD_cons_succ]
      rw [hidx]
      omega

/-- C10: when the answer at a position is present and nonempty, its
contribution relative to leaving the position unanswered is exactly one
when it equals the letter of the first option marked correct in the
question's option order, and zero for any other answer, including the
letters of later options also marked correct. -/
theorem score_first_correct_option (exam : List Question)
    (ans : Nat → Option (List Char)) (i : Nat) (a : List Char)
    (l1 l2 : List QOption) (opt : QOption)
    (hi : i < exam.length) (ha : ans i = some a) (hne : a ≠ [])
    (hopts : (exam.getD i default).options = l1 ++ opt :: l2)
    (hfirst : ∀ o ∈ l1, o.isCorrect = false) (hc : opt.isCorrect = true) :
    (calculate_score exam ans).correctCount =
      (calculate_score exam (fun j => if j = i then none else ans j)).correctCount +
        (if a = [opt.letter] then 1 else 0) := by
  show count_correct ans 0 exam = count_correct _ 0 exam + _
  rw [count_correct_remove ans i exam 0 (Nat.zero_le i) (by omega)]
  congr 1
  rw [Nat.sub_zero]
  simp only [scoreOne, ha, hopts, find?_first_correct hfirst hc, if_neg hne]

/-- C10 witness: with options A and B both marked correct, answering B
(the letter of the second correct option) contributes nothing. -/
theorem score_first_correct_option_witness :
    (calculate_score [qTwoCorrect] (fun j => if j = 0 then some ['B'] else none)).correctCount =
      (calculate_score [qTwoCorrect]
        (fun j => if j = 0 then none
          else if j = 0 then some ['B'] else none)).correctCount +
        (if ['B'] = ['A'] then 1 else 0) :=
  score_first_correct_option [qTwoCorrect]
    (fun j => if j = 0 then some ['B'] else none) 0 ['B']
    [] [⟨'B', ['y'], true⟩] ⟨'A', ['x'], true⟩
    (by decide) (by decide) (by decide) (by decide) (by decide) (by decide)

/-! ## Parser lemmas -/

theorem searchCapture_eq_none {label : List Char} {matcher : List Char → Option (List Char)} :
    ∀ {l : List Char}, containsSub label l = false → searchCapture label matcher l = none := by
  intro l
  induction l with
  | nil => intro _; rfl
  | cons c rest ih =>
    intro h
    unfold containsSub at h
    rw [Bool.or_eq_false_iff] at h
    unfold searchCapture
    rw [if_neg (by simp [h.1])]
    exact ih h.2

theorem process_block_none_of_no_domain {idq : Nat} {block : List Char}
    (h : containsSub DOMAIN_LABEL block = false) : process_block idq block = none := by
  unfold process_block
  rw [searchCapture_eq_none h]

theorem process_block_some_inv {idq : Nat} {b : List Char} {q : Question}
    (h : process_block idq b = some q) :
    q.questionText ≠ [] ∧ q.options ≠ [] ∧
      q.domainNumber = extract_domain_number q.domain := by
  unfold process_block at h
  cases hs : searchCapture DOMAIN_LABEL matchLineCapture b with
  | none => rw [hs] at h; cases h
  | some dcap =>
    rw [hs] at h
    simp only [] at h
    split at h
    · rename_i hcond
      cases h
      exact ⟨hcond.1, hcond.2, rfl⟩
    · cases h

/-- C5: the parser is a total function whose output has at most one
question per record marker in the input; every emitted question has a
nonempty question text and at least one recovered option, and a block
with no Domain: line is always dropped. -/
theorem parser_safety (s : List Char) (idq : Nat) (block : List Char)
    (hnd : containsSub DOMAIN_LABEL block = false) :
    (parse_questions s).length ≤ (splitQuestions s).length ∧
    (∀ q ∈ parse_questions s, q.questionText ≠ [] ∧ q.options ≠ []) ∧
    process_block idq block = none := by
  refine ⟨List.length_filterMap_le _ _, ?_, process_block_none_of_no_domain hnd⟩
  intro q hq
  obtain ⟨p, hp, hpq⟩ := List.mem_filterMap.mp hq
  exact ⟨(process_block_some_inv hpq).1, (process_block_some_inv hpq).2.1⟩

/-- C5 witness: the safety statement instantiated on the well-formed
input and on a concrete block having no Domain: line. -/
theorem parser_safety_witness :
    containsSub DOMAIN_LABEL NO_DOMAIN_BLOCK.data = false ∧
    ((parse_questions WELLFORMED_INPUT.data).length ≤
        (splitQuestions WELLFORMED_INPUT.data).length ∧
      (∀ q ∈ parse_questions WELLFORMED_INPUT.data,
        q.questionText ≠ [] ∧ q.options ≠ []) ∧
      process_block 1 NO_DOMAIN_BLOCK.data = none) :=
  ⟨by decide, parser_safety WELLFORMED_INPUT.data 1 NO_DOMAIN_BLOCK.data (by decide)⟩

/-- C6: on the well-formed single synthetic record, the parser yields
exactly one question with domain number 2, the stated question text,
three options of which exactly B is correct with the tag stripped, and
the stated excerpt. -/
theorem parser_roundtrip :
    parse_questions WELLFORMED_INPUT.data =
      [⟨1, "Domain 2: X".data, 2, "What is X?".data,
        [⟨'A', "foo".data, false⟩, ⟨'B', "bar".data, true⟩, ⟨'C', "baz".data, false⟩],
        "src".data⟩] := by
  decide

/-- C7 (amended): every parsed question stores as domainNumber exactly
the first integer token following the word Domain in its stored domain
label, with 0 when no such token exists; the value is not clamped to the
interval [0,5]. -/
theorem parsed_domain_number (s : List Char) (q : Question)
    (hq : q ∈ parse_questions s) :
    q.domainNumber = extract_domain_number q.domain ∧
    (searchDomainNum q.domain = none → q.domainNumber = 0) ∧
    (∀ n, searchDomainNum q.domain = some n → q.domainNumber = n) := by
  obtain ⟨p, hp, hpq⟩ := List.mem_filterMap.mp hq
  have h1 := (process_block_some_inv hpq).2.2
  refine ⟨h1, ?_, ?_⟩
  · intro h0
    rw [h1]
    unfold extract_domain_number
    rw [h0]
    rfl
  · intro n hn
    rw [h1]
    unfold extract_domain_number
    rw [hn]
    rfl

/-- C7 witness: the amended statement instantiated on the question parsed
from the well-formed record. -/
theorem parsed_domain_number_witness :
    (⟨1, "Domain 2: X".data, 2, "What is X?".data,
        [⟨'A', "foo".data, false⟩, ⟨'B', "bar".data, true⟩, ⟨'C', "baz".data, false⟩],
        "src".data⟩ : Question).domainNumber =
      extract_domain_number ("Domain 2: X".data) ∧
    (searchDomainNum ("Domain 2: X".data) = none →
      (2 : Nat) = 0) ∧
    (∀ n, searchDomainNum ("Domain 2: X".data) = some n → (2 : Nat) = n) :=
  parsed_domain_number WELLFORMED_INPUT.data
    ⟨1, "Domain 2: X".data, 2, "What is X?".data,
      [⟨'A', "foo".data, false⟩, ⟨'B', "bar".data, true⟩, ⟨'C', "baz".data, false⟩],
      "src".data⟩ (by decide)

/-- C7 counterexample: a record whose domain label reads Domain 7 parses
to a question with domainNumber 7, outside the claimed interval [0,5]. -/
theorem parsed_domain_number_cex :
    ¬ (∀ q ∈ parse_questions DOMAIN7_INPUT.data, q.domainNumber ≤ 5) := by
  decide

/-! ## Assembly lemmas -/

theorem selectStep_eq_append (S : Sampler) (qs acc : List Question) (p : Nat × Nat) :
    selectStep S qs acc p = acc ++ domainDraw S qs p := by
  simp only [domainDraw, selectStep]
  split
  · rw [List.nil_append]
  · split
    · rw [List.nil_append]
    · rw [List.nil_append, List.append_assoc]

theorem select_eq (S : Sampler) (qs : List Question) :
    select_exam_questions S qs =
      S.shuffle (domainDraw S qs (1, 32) ++ (domainDraw S qs (2, 30) ++
        (domainDraw S qs (3, 32) ++ (domainDraw S qs (4, 29) ++ domainDraw S qs (5, 29))))) := by
  unfold select_exam_questions EXAM_DISTRIBUTION
  simp only [List.foldl_cons, List.foldl_nil, selectStep_eq_append, List.nil_append,
    List.append_assoc]

theorem domainDraw_good {S : Sampler} {qs : List Question} {d c : Nat}
    (h : c ≤ (get_questions_by_domain qs d).length) :
    domainDraw S qs (d, c) = S.sample (get_questions_by_domain qs d) c := by
  simp only [domainDraw, selectStep]
  rw [if_pos h, List.nil_append]

theorem domainDraw_deficient {S : Sampler} {qs : List Question} {d c : Nat}
    (h : (get_questions_by_domain qs d).length < c)
    (hne : get_other_questions qs d ≠ []) :
    domainDraw S qs (d, c) = get_questions_by_domain qs d ++
      S.sample (get_other_questions qs d)
        (min (c - (get_questions_by_domain qs d).length) (get_other_questions qs d).length) := by
  simp only [domainDraw, selectStep]
  rw [if_neg (by omega), if_neg hne, List.nil_append]

theorem domainDraw_deficient_empty {S : Sampler} {qs : List Question} {d c : Nat}
    (h : (get_questions_by_domain qs d).length < c)
    (h0 : get_other_questions qs d = []) :
    domainDraw S qs (d, c) = get_questions_by_domain qs d := by
  simp only [domainDraw, selectStep]
  rw [if_neg (by omega), if_pos h0, List.nil_append]

theorem mem_pool {qs : List Question} {d : Nat} {q : Question}
    (h : q ∈ get_questions_by_domain qs d) : q.domainNumber = d := by
  simp only [get_questions_by_domain, List.mem_filter, decide_eq_true_iff] at h
  exact h.2

theorem mem_other {qs : List Question} {d : Nat} {q : Question}
    (h : q ∈ get_other_questions qs d) : q.domainNumber ≠ d := by
  simp only [get_other_questions, List.mem_filter, decide_eq_true_iff] at h
  exact h.2

theorem mem_sample {S : Sampler} {l : List Question} {k : Nat} {q : Question}
    (h : q ∈ S.sample l k) : q ∈ l :=
  (S.sample_subperm l k).subset h

theorem countDomain_append (d : Nat) (l1 l2 : List Question) :
    countDomain d (l1 ++ l2) = countDomain d l1 + countDomain d l2 :=
  List.countP_append _ _ _

theorem countDomain_eq_length {d : Nat} {l : List Question}
    (h : ∀ q ∈ l, q.domainNumber = d) : countDomain d l = l.length := by
  unfold countDomain
  rw [List.countP_eq_length.mpr]
  intro a ha
  simp [h a ha]

theorem countDomain_eq_zero {d : Nat} {l : List Question}
    (h : ∀ q ∈ l, q.domainNumber ≠ d) : countDomain d l = 0 := by
  unfold countDomain
  rw [List.countP_eq_zero.mpr]
  intro a ha
  simp [h a ha]

theorem countDomain_le_length (d : Nat) (l : List Question) :
    countDomain d l ≤ l.length :=
  List.countP_le_length _

theorem countDomain_perm {l1 l2 : List Question} (h : l1 ~ l2) (d : Nat) :
    countDomain d l1 = countDomain d l2 :=
  h.countP_eq _

theorem countDomain_sample_self (S : Sampler) (qs : List Question) {d c : Nat}
    (hc : c ≤ (get_questions_by_domain qs d).length) :
    countDomain d (S.sample (get_questions_by_domain qs d) c) = c := by
  rw [countDomain_eq_length (fun q hq => mem_pool (mem_sample hq))]
  exact S.sample_length _ _ hc

theorem countDomain_sample_pool_ne (S : Sampler) (qs : List Question) {d : Nat}
    (c : Nat) {e : Nat} (hne : e ≠ d) :
    countDomain e (S.sample (get_questions_by_domain qs d) c) = 0 :=
  countDomain_eq_zero (fun q hq => by
    have := mem_pool (mem_sample hq)
    omega)

theorem countDomain_sample_pool (S : Sampler) (qs : List Question) {d : Nat} (c e : Nat)
    (hc : c ≤ (get_questions_by_domain qs d).length) :
    countDomain e (S.sample (get_questions_by_domain qs d) c) = if e = d then c else 0 := by
  by_cases he : e = d
  · subst he
    rw [if_pos rfl]
    exact countDomain_sample_self S qs hc
  · rw [if_neg he]
    exact countDomain_sample_pool_ne S qs c he

theorem countDomain_sample_other_self (S : Sampler) (qs : List Question) (d k : Nat) :
    countDomain d (S.sample (get_other_questions qs d) k) = 0 :=
  countDomain_eq_zero (fun _ hq => mem_other (mem_sample hq))

theorem countDomain_pool_self (qs : List Question) (d : Nat) :
    countDomain d (get_questions_by_domain qs d) = (get_questions_by_domain qs d).length :=
  countDomain_eq_length (fun _ hq => mem_pool hq)

theorem countDomain_pool_ne (qs : List Question) {d e : Nat} (hne : e ≠ d) :
    countDomain e (get_questions_by_domain qs d) = 0 :=
  countDomain_eq_zero (fun q hq => by
    have := mem_pool hq
    omega)

theorem countDomain_sample_le (S : Sampler) (l : List Question) (k e : Nat)
    (hk : k ≤ l.length) : countDomain e (S.sample l k) ≤ k := by
  have h1 := countDomain_le_length e (S.sample l k)
  rw [S.sample_length _ _ hk] at h1
  exact h1

/-- C1: when every domain pool meets its quota, the assembled practice
exam has per-domain counts exactly matching the quota table, its length
is the 152-question total, it is a sub-permutation of the corpus (no
question drawn more often than the corpus holds it), and a duplicate-free
corpus yields a duplicate-free exam. -/
theorem stratified_assembly (S : Sampler) (questions : List Question)
    (hq : ∀ p ∈ EXAM_DISTRIBUTION, p.2 ≤ (get_questions_by_domain questions p.1).length) :
    (∀ p ∈ EXAM_DISTRIBUTION,
      countDomain p.1 (select_exam_questions S questions) = p.2) ∧
    (select_exam_questions S questions).length = TOTAL_EXAM_QUESTIONS ∧
    select_exam_questions S questions <+~ questions ∧
    (questions.Nodup → (select_exam_questions S questions).Nodup) := by
  have h1 := hq (1, 32) (by simp [EXAM_DISTRIBUTION])
  have h2 := hq (2, 30) (by simp [EXAM_DISTRIBUTION])
  have h3 := hq (3, 32) (by simp [EXAM_DISTRIBUTION])
  have h4 := hq (4, 29) (by simp [EXAM_DISTRIBUTION])
  have h5 := hq (5, 29) (by simp [EXAM_DISTRIBUTION])
  have hsel := select_eq S questions
  rw [domainDraw_good h1, domainDraw_good h2, domainDraw_good h3, domainDraw_good h4,
    domainDraw_good h5] at hsel
  have hsub : select_exam_questions S questions <+~ questions := by
    rw [hsel]
    refine List.Subperm.trans (S.shuffle_perm _).subperm ?_
    rw [List.subperm_ext_iff]
    intro x hx
    simp only [List.count_append]
    have bnd : ∀ d c : Nat, List.count x (S.sample (get_questions_by_domain questions d) c) ≤
        if x.domainNumber = d then List.count x questions else 0 := by
      intro d c
      by_cases hd : x.domainNumber = d
      · rw [if_pos hd]
        refine le_trans ((S.sample_subperm _ c).count_le x) ?_
        exact (List.filter_sublist questions).count_le x
      · rw [if_neg hd]
        have hx0 : x ∉ S.sample (get_questions_by_domain questions d) c := fun hmem =>
          hd (mem_pool (mem_sample hmem))
        rw [List.count_eq_zero.mpr hx0]
    have b1 := bnd 1 32
    have b2 := bnd 2 30
    have b3 := bnd 3 32
    have b4 := bnd 4 29
    have b5 := bnd 5 29
    have hsum : (if x.domainNumber = 1 then List.count x questions else 0) +
        ((if x.domainNumber = 2 then List.count x questions else 0) +
          ((if x.domainNumber = 3 then List.count x questions else 0) +
            ((if x.domainNumber = 4 then List.count x questions else 0) +
              (if x.domainNumber = 5 then List.count x questions else 0)))) ≤
        List.count x questions := by
      split_ifs <;> omega
    omega
  refine ⟨?_, ?_, hsub, ?_⟩
  · intro p hp
    have hcnt : ∀ e : Nat, countDomain e (select_exam_questions S questions) =
        countDomain e (S.sample (get_questions_by_domain questions 1) 32) +
          (countDomain e (S.sample (get_questions_by_domain questions 2) 30) +
            (countDomain e (S.sample (get_questions_by_domain questions 3) 32) +
              (countDomain e (S.sample (get_questions_by_domain questions 4) 29) +
                countDomain e (S.sample (get_questions_by_domain questions 5) 29)))) := by
      intro e
      rw [hsel, countDomain_perm (S.shuffle_perm _) e]
      simp only [countDomain_append]
    simp only [EXAM_DISTRIBUTION, List.mem_cons, List.not_mem_nil, or_false] at hp
    rcases hp with rfl | rfl | rfl | rfl | rfl <;>
      simp only [hcnt, countDomain_sample_pool S questions _ _ h1,
        countDomain_sample_pool S questions _ _ h2,
        countDomain_sample_pool S questions _ _ h3,
        countDomain_sample_pool S questions _ _ h4,
        countDomain_sample_pool S questions _ _ h5] <;>
      norm_num
  · rw [hsel, (S.shuffle_perm _).length_eq]
    simp only [List.length_append, S.sample_length _ _ h1, S.sample_length _ _ h2,
      S.sample_length _ _ h3, S.sample_length _ _ h4, S.sample_length _ _ h5,
      TOTAL_EXAM_QUESTIONS]
  · intro hnd
    obtain ⟨l, hlp, hls⟩ := hsub
    exact hlp.nodup (hls.nodup hnd)

/-- C1 witness: the stratified assembly statement instantiated on the
deterministic sampler and a corpus holding exactly quota questions per
domain. -/
theorem stratified_assembly_witness :
    (∀ p ∈ EXAM_DISTRIBUTION, p.2 ≤ (get_questions_by_domain corpusFull p.1).length) ∧
    ((∀ p ∈ EXAM_DISTRIBUTION,
        countDomain p.1 (select_exam_questions takeSampler corpusFull) = p.2) ∧
      (select_exam_questions takeSampler corpusFull).length = TOTAL_EXAM_QUESTIONS ∧
      select_exam_questions takeSampler corpusFull <+~ corpusFull ∧
      (corpusFull.Nodup → (select_exam_questions takeSampler corpusFull).Nodup)) :=
  ⟨by decide, stratified_assembly takeSampler corpusFull (by decide)⟩

/-- C2 (amended): when exactly one domain D falls short of its quota
(every other domain meeting its own) and the pool of questions outside D
covers D's deficit, the assembled exam still reaches the nominal
152-question total, domain D contributes exactly its full pool (the
shortfall is drawn from questions not in D), and no domain's count
exceeds its quota by more than the borrowed shortfall. -/
theorem shortfall_assembly (S : Sampler) (questions : List Question) (D qD : Nat)
    (hmem : (D, qD) ∈ EXAM_DISTRIBUTION)
    (hdef : (get_questions_by_domain questions D).length < qD)
    (hothers : ∀ p ∈ EXAM_DISTRIBUTION, p.1 ≠ D →
      p.2 ≤ (get_questions_by_domain questions p.1).length)
    (hcov : qD - (get_questions_by_domain questions D).length ≤
      (get_other_questions questions D).length) :
    (select_exam_questions S questions).length = TOTAL_EXAM_QUESTIONS ∧
    countDomain D (select_exam_questions S questions) =
      (get_questions_by_domain questions D).length ∧
    (∀ p ∈ EXAM_DISTRIBUTION, countDomain p.1 (select_exam_questions S questions) ≤
      p.2 + (qD - (get_questions_by_domain questions D).length)) := by
  have hselraw := select_eq S questions
  simp only [EXAM_DISTRIBUTION, List.mem_cons, List.not_mem_nil, or_false,
    Prod.mk.injEq] at hmem
  rcases hmem with ⟨rfl, rfl⟩ | ⟨rfl, rfl⟩ | ⟨rfl, rfl⟩ | ⟨rfl, rfl⟩ | ⟨rfl, rfl⟩
  · -- domain 1 deficient
    have h2 := hothers (2, 30) (by simp [EXAM_DISTRIBUTION]) (by omega)
    have h3 := hothers (3, 32) (by simp [EXAM_DISTRIBUTION]) (by omega)
    have h4 := hothers (4, 29) (by simp [EXAM_DISTRIBUTION]) (by omega)
    have h5 := hothers (5, 29) (by simp [EXAM_DISTRIBUTION]) (by omega)
    have hne : get_other_questions questions 1 ≠ [] := by
      intro h0
      rw [h0] at hcov
      simp at hcov
      omega
    rw [domainDraw_deficient hdef hne, domainDraw_good h2, domainDraw_good h3,
      domainDraw_good h4, domainDraw_good h5] at hselraw
    refine ⟨?_, ?_, ?_⟩
    · rw [hselraw, (S.shuffle_perm _).length_eq]
      simp only [List.length_append, S.sample_length _ _ h2, S.sample_length _ _ h3,
        S.sample_length _ _ h4, S.sample_length _ _ h5,
        S.sample_length _ _ (Nat.min_le_right
          (32 - (get_questions_by_domain questions 1).length) _),
        TOTAL_EXAM_QUESTIONS]
      omega
    · rw [hselraw, countDomain_perm (S.shuffle_perm _)]
      simp [countDomain_append, countDomain_pool_self, countDomain_sample_other_self,
        countDomain_sample_pool S questions _ _ h2, countDomain_sample_pool S questions _ _ h3,
        countDomain_sample_pool S questions _ _ h4, countDomain_sample_pool S questions _ _ h5]
    · intro p hp
      have hb1 := countDomain_sample_le S (get_other_questions questions 1) _ 1
        (Nat.min_le_right (32 - (get_questions_by_domain questions 1).length)
          (get_other_questions questions 1).length)
      have hb2 := countDomain_sample_le S (get_other_questions questions 1) _ 2
        (Nat.min_le_right (32 - (get_questions_by_domain questions 1).length)
          (get_other_questions questions 1).length)
      have hb3 := countDomain_sample_le S (get_other_questions questions 1) _ 3
        (Nat.min_le_right (32 - (get_questions_by_domain questions 1).length)
          (get_other_questions questions 1).length)
      have hb4 := countDomain_sample_le S (get_other_questions questions 1) _ 4
        (Nat.min_le_right (32 - (get_questions_by_domain questions 1).length)
          (get_other_questions questions 1).length)
      have hb5 := countDomain_sample_le S (get_other_questions questions 1) _ 5
        (Nat.min_le_right (32 - (get_questions_by_domain questions 1).length)
          (get_other_questions questions 1).length)
      have hz2 := countDomain_pool_ne questions (show (2 : Nat) ≠ 1 by omega)
      have hz3 := countDomain_pool_ne questions (show (3 : Nat) ≠ 1 by omega)
      have hz4 := countDomain_pool_ne questions (show (4 : Nat) ≠ 1 by omega)
      have hz5 := countDomain_pool_ne questions (show (5 : Nat) ≠ 1 by omega)
      have hself := countDomain_pool_self questions 1
      simp only [EXAM_DISTRIBUTION, List.mem_cons, List.not_mem_nil, or_false] at hp
      rcases hp with rfl | rfl | rfl | rfl | rfl <;>
        (rw [hselraw, countDomain_perm (S.shuffle_perm _)]
         simp [countDomain_append, countDomain_sample_pool S questions _ _ h2,
           countDomain_sample_pool S questions _ _ h3,
           countDomain_sample_pool S questions _ _ h4,
           countDomain_sample_pool S questions _ _ h5, hz2, hz3, hz4, hz5, hself]
         omega)
  · -- domain 2 deficient
    have h1 := hothers (1, 32) (by simp [EXAM_DISTRIBUTION]) (by omega)
    have h3 := hothers (3, 32) (by simp [EXAM_DISTRIBUTION]) (by omega)
    have h4 := hothers (4, 29) (by simp [EXAM_DISTRIBUTION]) (by omega)
    have h5 := hothers (5, 29) (by simp [EXAM_DISTRIBUTION]) (by omega)
    have hne : get_other_questions questions 2 ≠ [] := by
      intro h0
      rw [h0] at hcov
      simp at hcov
      omega
    rw [domainDraw_good h1, domainDraw_deficient hdef hne, domainDraw_good h3,
      domainDraw_good h4, domainDraw_good h5] at hselraw
    refine ⟨?_, ?_, ?_⟩
    · rw [hselraw, (S.shuffle_perm _).length_eq]
      simp only [List.length_append, S.sample_length _ _ h1, S.sample_length _ _ h3,
        S.sample_length _ _ h4, S.sample_length _ _ h5,
        S.sample_length _ _ (Nat.min_le_right
          (30 - (get_questions_by_domain questions 2).length) _),
        TOTAL_EXAM_QUESTIONS]
      omega
    · rw [hselraw, countDomain_perm (S.shuffle_perm _)]
      simp [countDomain_append, countDomain_pool_self, countDomain_sample_other_self,
        countDomain_sample_pool S questions _ _ h1, countDomain_sample_pool S questions _ _ h3,
        countDomain_sample_pool S questions _ _ h4, countDomain_sample_pool S questions _ _ h5]
    · intro p hp
      have hb1 := countDomain_sample_le S (get_other_questions questions 2) _ 1
        (Nat.min_le_right (30 - (get_questions_by_domain questions 2).length)
          (get_other_questions questions 2).length)
      have hb2 := countDomain_sample_le S (get_other_questions questions 2) _ 2
        (Nat.min_le_right (30 - (get_questions_by_domain questions 2).length)
          (get_other_questions questions 2).length)
      have hb3 := countDomain_sample_le S (get_other_questions questions 2) _ 3
        (Nat.min_le_right (30 - (get_questions_by_domain questions 2).length)
          (get_other_questions questions 2).length)
      have hb4 := countDomain_sample_le S (get_other_questions questions 2) _ 4
        (Nat.min_le_right (30 - (get_questions_by_domain questions 2).length)
          (get_other_questions questions 2).length)
      have hb5 := countDomain_sample_le S (get_other_questions questions 2) _ 5
        (Nat.min_le_right (30 - (get_questions_by_domain questions 2).length)
          (get_other_questions questions 2).length)
      have hz1 := countDomain_pool_ne questions (show (1 : Nat) ≠ 2 by omega)
      have hz3 := countDomain_pool_ne questions (show (3 : Nat) ≠ 2 by omega)
      have hz4 := countDomain_pool_ne questions (show (4 : Nat) ≠ 2 by omega)
      have hz5 := countDomain_pool_ne questions (show (5 : Nat) ≠ 2 by omega)
      have hself := countDomain_pool_self questions 2
      simp only [EXAM_DISTRIBUTION, List.mem_cons, List.not_mem_nil, or_false] at hp
      rcases hp with rfl | rfl | rfl | rfl | rfl <;>
        (rw [hselraw, countDomain_perm (S.shuffle_perm _)]
         simp [countDomain_append, countDomain_sample_pool S questions _ _ h1,
           countDomain_sample_pool S questions _ _ h3,
           countDomain_sample_pool S questions _ _ h4,
           countDomain_sample_pool S questions _ _ h5, hz1, hz3, hz4, hz5, hself]
         omega)
  · -- domain 3 deficient
    have h1 := hothers (1, 32) (by simp [EXAM_DISTRIBUTION]) (by omega)
    have h2 := hothers (2, 30) (by simp [EXAM_DISTRIBUTION]) (by omega)
    have h4 := hothers (4, 29) (by simp [EXAM_DISTRIBUTION]) (by omega)
    have h5 := hothers (5, 29) (by simp [EXAM_DISTRIBUTION]) (by omega)
    have hne : get_other_questions questions 3 ≠ [] := by
      intro h0
      rw [h0] at hcov
      simp at hcov
      omega
    rw [domainDraw_good h1, domainDraw_good h2, domainDraw_deficient hdef hne,
      domainDraw_good h4, domainDraw_good h5] at hselraw
    refine ⟨?_, ?_, ?_⟩
    · rw [hselraw, (S.shuffle_perm _).length_eq]
      simp only [List.length_append, S.sample_length _ _ h1, S.sample_length _ _ h2,
        S.sample_length _ _ h4, S.sample_length _ _ h5,
        S.sample_length _ _ (Nat.min_le_right
          (32 - (get_questions_by_domain questions 3).length) _),
        TOTAL_EXAM_QUESTIONS]
      omega
    · rw [hselraw, countDomain_perm (S.shuffle_perm _)]
      simp [countDomain_append, countDomain_pool_self, countDomain_sample_other_self,
        countDomain_sample_pool S questions _ _ h1, countDomain_sample_pool S questions _ _ h2,
        countDomain_sample_pool S questions _ _ h4, countDomain_sample_pool S questions _ _ h5]
    · intro p hp
      have hb1 := countDomain_sample_le S (get_other_questions questions 3) _ 1
        (Nat.min_le_right (32 - (get_questions_by_domain questions 3).length)
          (get_other_questions questions 3).length)
      have hb2 := countDomain_sample_le S (get_other_questions questions 3) _ 2
        (Nat.min_le_right (32 - (get_questions_by_domain questions 3).length)
          (get_other_questions questions 3).length)
      have hb3 := countDomain_sample_le S (get_other_questions questions 3) _ 3
        (Nat.min_le_right (32 - (get_questions_by_domain questions 3).length)
          (get_other_questions questions 3).length)
      have hb4 := countDomain_sample_le S (get_other_questions questions 3) _ 4
        (Nat.min_le_right (32 - (get_questions_by_domain questions 3).length)
          (get_other_questions questions 3).length)
      have hb5 := countDomain_sample_le S (get_other_questions questions 3) _ 5
        (Nat.min_le_right (32 - (get_questions_by_domain questions 3).length)
          (get_other_questions questions 3).length)
      have hz1 := countDomain_pool_ne questions (show (1 : Nat) ≠ 3 by omega)
      have hz2 := countDomain_pool_ne questions (show (2 : Nat) ≠ 3 by omega)
      have hz4 := countDomain_pool_ne questions (show (4 : Nat) ≠ 3 by omega)
      have hz5 := countDomain_pool_ne questions (show (5 : Nat) ≠ 3 by omega)
      have hself := countDomain_pool_self questions 3
      simp only [EXAM_DISTRIBUTION, List.mem_cons, List.not_mem_nil, or_false] at hp
      rcases hp with rfl | rfl | rfl | rfl | rfl <;>
        (rw [hselraw, countDomain_perm (S.shuffle_perm _)]
         simp [countDomain_append, countDomain_sample_pool S questions _ _ h1,
           countDomain_sample_pool S questions _ _ h2,
           countDomain_sample_pool S questions _ _ h4,
           countDomain_sample_pool S questions _ _ h5, hz1, hz2, hz4, hz5, hself]
         omega)
  · -- domain 4 deficient
    have h1 := hothers (1, 32) (by simp [EXAM_DISTRIBUTION]) (by omega)
    have h2 := hothers (2, 30) (by simp [EXAM_DISTRIBUTION]) (by omega)
    have h3 := hothers (3, 32) (by simp [EXAM_DISTRIBUTION]) (by omega)
    have h5 := hothers (5, 29) (by simp [EXAM_DISTRIBUTION]) (by omega)
    have hne : get_other_questions questions 4 ≠ [] := by
      intro h0
      rw [h0] at hcov
      simp at hcov
      omega
    rw [domainDraw_good h1, domainDraw_good h2, domainDraw_good h3,
      domainDraw_deficient hdef hne, domainDraw_good h5] at hselraw
    refine ⟨?_, ?_, ?_⟩
    · rw [hselraw, (S.shuffle_perm _).length_eq]
      simp only [List.length_append, S.sample_length _ _ h1, S.sample_length _ _ h2,
        S.sample_length _ _ h3, S.sample_length _ _ h5,
        S.sample_length _ _ (Nat.min_le_right
          (29 - (get_questions_by_domain questions 4).length) _),
        TOTAL_EXAM_QUESTIONS]
      omega
    · rw [hselraw, countDomain_perm (S.shuffle_perm _)]
      simp [countDomain_append, countDomain_pool_self, countDomain_sample_other_self,
        countDomain_sample_pool S questions _ _ h1, countDomain_sample_pool S questions _ _ h2,
        countDomain_sample_pool S questions _ _ h3, countDomain_sample_pool S questions _ _ h5]
    · intro p hp
      have hb1 := countDomain_sample_le S (get_other_questions questions 4) _ 1
        (Nat.min_le_right (29 - (get_questions_by_domain questions 4).length)
          (get_other_questions questions 4).length)
      have hb2 := countDomain_sample_le S (get_other_questions questions 4) _ 2
        (Nat.min_le_right (29 - (get_questions_by_domain questions 4).length)
          (get_other_questions questions 4).length)
      have hb3 := countDomain_sample_le S (get_other_questions questions 4) _ 3
        (Nat.min_le_right (29 - (get_questions_by_domain questions 4).length)
          (get_other_questions questions 4).length)
      have hb4 := countDomain_sample_le S (get_other_questions questions 4) _ 4
        (Nat.min_le_right (29 - (get_questions_by_domain questions 4).length)
          (get_other_questions questions 4).length)
      have hb5 := countDomain_sample_le S (get_other_questions questions 4) _ 5
        (Nat.min_le_right (29 - (get_questions_by_domain questions 4).length)
          (get_other_questions questions 4).length)
      have hz1 := countDomain_pool_ne questions (show (1 : Nat) ≠ 4 by omega)
      have hz2 := countDomain_pool_ne questions (show (2 : Nat) ≠ 4 by omega)
      have hz3 := countDomain_pool_ne questions (show (3 : Nat) ≠ 4 by omega)
      have hz5 := countDomain_pool_ne questions (show (5 : Nat) ≠ 4 by omega)
      have hself := countDomain_pool_self questions 4
      simp only [EXAM_DISTRIBUTION, List.mem_cons, List.not_mem_nil, or_false] at hp
      rcases hp with rfl | rfl | rfl | rfl | rfl <;>
        (rw [hselraw, countDomain_perm (S.shuffle_perm _)]
         simp [countDomain_append, countDomain_sample_pool S questions _ _ h1,
           countDomain_sample_pool S questions _ _ h2,
           countDomain_sample_pool S questions _ _ h3,
           countDomain_sample_pool S questions _ _ h5, hz1, hz2, hz3, hz5, hself]
         omega)
  · -- domain 5 deficient
    have h1 := hothers (1, 32) (by simp [EXAM_DISTRIBUTION]) (by omega)
    have h2 := hothers (2, 30) (by simp [EXAM_DISTRIBUTION]) (by omega)
    have h3 := hothers (3, 32) (by simp [EXAM_DISTRIBUTION]) (by omega)
    have h4 := hothers (4, 29) (by simp [EXAM_DISTRIBUTION]) (by omega)
    have hne : get_other_questions questions 5 ≠ [] := by
      intro h0
      rw [h0] at hcov
      simp at hcov
      omega
    rw [domainDraw_good h1, domainDraw_good h2, domainDraw_good h3,
      domainDraw_good h4, domainDraw_deficient hdef hne] at hselraw
    refine ⟨?_, ?_, ?_⟩
    · rw [hselraw, (S.shuffle_perm _).length_eq]
      simp only [List.length_append, S.sample_length _ _ h1, S.sample_length _ _ h2,
        S.sample_length _ _ h3, S.sample_length _ _ h4,
        S.sample_length _ _ (Nat.min_le_right
          (29 - (get_questions_by_domain questions 5).length) _),
        TOTAL_EXAM_QUESTIONS]
      omega
    · rw [hselraw, countDomain_perm (S.shuffle_perm _)]
      simp [countDomain_append, countDomain_pool_self, countDomain_sample_other_self,
        countDomain_sample_pool S questions _ _ h1, countDomain_sample_pool S questions _ _ h2,
        countDomain_sample_pool S questions _ _ h3, countDomain_sample_pool S questions _ _ h4]
    · intro p hp
      have hb1 := countDomain_sample_le S (get_other_questions questions 5) _ 1
        (Nat.min_le_right (29 - (get_questions_by_domain questions 5).length)
          (get_other_questions questions 5).length)
      have hb2 := countDomain_sample_le S (get_other_questions questions 5) _ 2
        (Nat.min_le_right (29 - (get_questions_by_domain questions 5).length)
          (get_other_questions questions 5).length)
      have hb3 := countDomain_sample_le S (get_other_questions questions 5) _ 3
        (Nat.min_le_right (29 - (get_questions_by_domain questions 5).length)
          (get_other_questions questions 5).length)
      have hb4 := countDomain_sample_le S (get_other_questions questions 5) _ 4
        (Nat.min_le_right (29 - (get_questions_by_domain questions 5).length)
          (get_other_questions questions 5).length)
      have hb5 := countDomain_sample_le S (get_other_questions questions 5) _ 5
        (Nat.min_le_right (29 - (get_questions_by_domain questions 5).length)
          (get_other_questions questions 5).length)
      have hz1 := countDomain_pool_ne questions (show (1 : Nat) ≠ 5 by omega)
      have hz2 := countDomain_pool_ne questions (show (2 : Nat) ≠ 5 by omega)
      have hz3 := countDomain_pool_ne questions (show (3 : Nat) ≠ 5 by omega)
      have hz4 := countDomain_pool_ne questions (show (4 : Nat) ≠ 5 by omega)
      have hself := countDomain_pool_self questions 5
      simp only [EXAM_DISTRIBUTION, List.mem_cons, List.not_mem_nil, or_false] at hp
      rcases hp with rfl | rfl | rfl | rfl | rfl <;>
        (rw [hselraw, countDomain_perm (S.shuffle_perm _)]
         simp [countDomain_append, countDomain_sample_pool S questions _ _ h1,
           countDomain_sample_pool S questions _ _ h2,
           countDomain_sample_pool S questions _ _ h3,
           countDomain_sample_pool S questions _ _ h4, hz1, hz2, hz3, hz4, hself]
         omega)

/-- C2 witness: the amended statement instantiated on the deterministic
sampler and a corpus in which only domain 2 is deficient (empty) while
the rest of the corpus covers the deficit. -/
theorem shortfall_assembly_witness :
    ((2, 30) ∈ EXAM_DISTRIBUTION ∧
      (get_questions_by_domain corpusDef2 2).length < 30 ∧
      30 - (get_questions_by_domain corpusDef2 2).length ≤
        (get_other_questions corpusDef2 2).length) ∧
    ((select_exam_questions takeSampler corpusDef2).length = TOTAL_EXAM_QUESTIONS ∧
      countDomain 2 (select_exam_questions takeSampler corpusDef2) =
        (get_questions_by_domain corpusDef2 2).length ∧
      (∀ p ∈ EXAM_DISTRIBUTION,
        countDomain p.1 (select_exam_questions takeSampler corpusDef2) ≤
          p.2 + (30 - (get_questions_by_domain corpusDef2 2).length))) :=
  ⟨⟨by decide, by decide, by decide⟩,
    shortfall_assembly takeSampler corpusDef2 2 30 (by decide) (by decide)
      (by decide) (by decide)⟩

/-- C2 counterexample: the claim as stated fails. On a corpus of 31
domain-2 questions, domain 4 is deficient and the pool outside domain 4
covers its deficit, yet the assembled exam has 150 questions, not the
nominal 152: other domains are deficient too and their complements are
too small. -/
theorem shortfall_assembly_cex :
    ((4, 29) ∈ EXAM_DISTRIBUTION ∧
      (get_questions_by_domain corpusOnly2 4).length < 29 ∧
      29 - (get_questions_by_domain corpusOnly2 4).length ≤
        (get_other_questions corpusOnly2 4).length) ∧
    (select_exam_questions takeSampler corpusOnly2).length = 150 ∧
    (select_exam_questions takeSampler corpusOnly2).length ≠ TOTAL_EXAM_QUESTIONS := by
  refine ⟨⟨by decide, by decide, by decide⟩, by decide, by decide⟩

end CCISO
